import Mathlib

/-!
Shallow embedding of the analytics dashboard (`dashboard.py`).

The source is a pandas program: a boolean-mask Filter Stage over an order
table, followed by independent aggregate views (summary metrics, grouped
means, a top-10 ranking, a correlation matrix, monthly and weekday
profiles).  Rows are embedded as a structure over exact numbers (`ℚ` for
float columns, with `Option` for nullable cells; pandas `NaN` results are
`none`).  Each pandas expression of the source is translated into a
definition below, and the claims about the program are proved or refuted
against those definitions.
-/

namespace Dashboard

/-- Calendar date: the `.dt.date` portion of a pandas timestamp.
Ordered lexicographically by (year, month, day). -/
structure Date where
  year : Nat
  month : Nat
  day : Nat
deriving DecidableEq, Repr

/-- A purchase timestamp: calendar date plus time-of-day (seconds past
midnight).  `Series.dt.date` keeps only the `date` component, so the
Filter Stage ignores `seconds`; `dt.to_period('M')` keeps only
`(date.year, date.month)`. -/
structure Timestamp where
  date : Date
  seconds : Nat
deriving DecidableEq, Repr

/-- Boolean `≤` on calendar dates, lexicographic on (year, month, day);
this is the order pandas uses when comparing `datetime.date` values. -/
def dateLeB (a b : Date) : Bool :=
  decide (a.year < b.year) ||
    (decide (a.year = b.year) &&
      (decide (a.month < b.month) ||
        (decide (a.month = b.month) && decide (a.day ≤ b.day))))

/-- One row of the order table, with exactly the columns the dashboard
reads.  Nullable columns are `Option`; `order_id` and `customer_state`
are always present in the dataset (non-null). -/
structure Row where
  order_id : String
  customer_state : String
  order_purchase_timestamp : Timestamp
  delivery_delay : Option ℚ
  delivery_status : Option String
  product_category_name : Option String
  product_weight_g : Option ℚ
  product_length_cm : Option ℚ
  product_height_cm : Option ℚ
  product_width_cm : Option ℚ
  volume : Option ℚ
  weight_category : Option String
  order_weekday : Option String
deriving DecidableEq, Repr

/-- Row builder for concrete test tables: the remaining columns default
to null. -/
def mkRow (oid state : String) (ts : Timestamp) (delay : Option ℚ)
    (status : Option String) : Row :=
  { order_id := oid
    customer_state := state
    order_purchase_timestamp := ts
    delivery_delay := delay
    delivery_status := status
    product_category_name := none
    product_weight_g := none
    product_length_cm := none
    product_height_cm := none
    product_width_cm := none
    volume := none
    weight_category := none
    order_weekday := none }

/-- Mean of a list of rationals; `none` models the pandas `NaN` produced
by `Series.mean()` on an empty series. -/
def qmean (xs : List ℚ) : Option ℚ :=
  if xs.isEmpty then none else some (xs.sum / (xs.length : ℚ))

/-- Boolean-mask row selection, `df[mask]` in pandas: keep the rows whose
aligned mask entry is `true`. -/
def maskSelect (rows : List α) (mask : List Bool) : List α :=
  (rows.zip mask).filterMap fun p => if p.2 then some p.1 else none

/-- The filter predicate of the source, as one per-row test:
`customer_state` selected, and the calendar date of the purchase
timestamp within the inclusive range. -/
def rowPasses (R : List String) (D : Date × Date) (r : Row) : Bool :=
  (R.contains r.customer_state &&
      dateLeB D.1 r.order_purchase_timestamp.date) &&
    dateLeB r.order_purchase_timestamp.date D.2

/-- The Filter Stage (`filtered_df` of the source): elementwise
conjunction of the three boolean masks
`df['customer_state'].isin(selected_states)`,
`df['order_purchase_timestamp'].dt.date >= date_range[0]` and
`df['order_purchase_timestamp'].dt.date <= date_range[1]`, then
boolean-mask row selection. -/
def filtered_df (df : List Row) (R : List String) (D : Date × Date) :
    List Row :=
  maskSelect df
    (List.zipWith and
      (List.zipWith and
        (df.map fun r => R.contains r.customer_state)
        (df.map fun r => dateLeB D.1 r.order_purchase_timestamp.date))
      (df.map fun r => dateLeB r.order_purchase_timestamp.date D.2))

/-- Concrete one-row table used to instantiate the Filter Stage claims. -/
def exTable : List Row :=
  [mkRow "1" "SP" ⟨⟨2017, 5, 5⟩, 3600⟩ (some 5) (some "Delayed"),
   mkRow "2" "RJ" ⟨⟨2018, 2, 1⟩, 0⟩ (some (-2)) (some "On Time")]

theorem zipWith_map_same (f : β → β → β) (g h : α → β) (l : List α) :
    List.zipWith f (l.map g) (l.map h) = l.map fun x => f (g x) (h x) := by
  induction l with
  | nil => rfl
  | cons a l ih => simp [ih]

theorem maskSelect_map (p : α → Bool) (l : List α) :
    maskSelect l (l.map p) = l.filter p := by
  induction l with
  | nil => rfl
  | cons a l ih =>
    by_cases h : p a <;> simp [maskSelect, List.filter_cons, h] at ih ⊢ <;>
      exact ih

/-- The boolean-mask pipeline of the Filter Stage collapses to a single
stable `List.filter` with the per-row predicate. -/
theorem filtered_df_eq_filter (df : List Row) (R : List String)
    (D : Date × Date) :
    filtered_df df R D = df.filter (rowPasses R D) := by
  unfold filtered_df
  rw [zipWith_map_same, zipWith_map_same, maskSelect_map]
  rfl

/-- C1: every row of `filter(T, R, D)` is a row of T whose
`customer_state` is in R and whose purchase calendar date lies in
[start, end] inclusive; the result is a sublist of T (stable filter: no
fabrication, no duplication, order preserved), its length is at most
T's, and per-row multiplicity never increases. -/
theorem filter_narrowing (T : List Row) (R : List String) (D : Date × Date)
    (h : dateLeB D.1 D.2 = true) :
    filtered_df T R D = T.filter (rowPasses R D) ∧
    (filtered_df T R D).Sublist T ∧
    (∀ r ∈ filtered_df T R D, r ∈ T ∧
      R.contains r.customer_state = true ∧
      dateLeB D.1 r.order_purchase_timestamp.date = true ∧
      dateLeB r.order_purchase_timestamp.date D.2 = true) ∧
    (filtered_df T R D).length ≤ T.length ∧
    (∀ r : Row, (filtered_df T R D).count r ≤ T.count r) := by
  have he := filtered_df_eq_filter T R D
  refine ⟨he, ?_, ?_, ?_, ?_⟩
  · rw [he]; exact List.filter_sublist T
  · intro r hr
    rw [he, List.mem_filter] at hr
    obtain ⟨hmem, hp⟩ := hr
    unfold rowPasses at hp
    simp only [Bool.and_eq_true] at hp
    exact ⟨hmem, hp.1.1, hp.1.2, hp.2⟩
  · rw [he]; exact List.length_filter_le _ T
  · intro r
    rw [he]
    exact (List.filter_sublist T).count_le r

/-- Witness for C1 at a concrete table, region set and date range. -/
theorem filter_narrowing_witness :
    dateLeB ⟨2017, 1, 1⟩ ⟨2017, 12, 31⟩ = true ∧
    filtered_df exTable ["SP"] (⟨2017, 1, 1⟩, ⟨2017, 12, 31⟩) =
      exTable.filter (rowPasses ["SP"] (⟨2017, 1, 1⟩, ⟨2017, 12, 31⟩)) :=
  ⟨by decide,
   (filter_narrowing exTable ["SP"] (⟨2017, 1, 1⟩, ⟨2017, 12, 31⟩)
      (by decide)).1⟩

/-- Boolean mean, `Series.mean()` on a boolean series: fraction of `true`
entries; `NaN` (here `none`) on the empty series. -/
def boolMean (bs : List Bool) : Option ℚ :=
  if bs.isEmpty then none
  else some (((bs.filter id).length : ℚ) / (bs.length : ℚ))

/-- `on_time_percentage` of the source:
`(filtered_df['delivery_status'] == 'On Time').mean() * 100`.  Comparing
a series with a scalar marks null cells `false`; multiplying a `NaN`
mean by 100 keeps it `NaN`. -/
def on_time_percentage (df : List Row) : Option ℚ :=
  (boolMean (df.map fun r => r.delivery_status == some "On Time")).map
    (· * 100)

theorem dateLeB_trans {a d b : Date} (h1 : dateLeB a d = true)
    (h2 : dateLeB d b = true) : dateLeB a b = true := by
  unfold dateLeB at h1 h2 ⊢
  simp only [Bool.or_eq_true, Bool.and_eq_true, decide_eq_true_eq] at h1 h2 ⊢
  omega

/-- C2 (counterexample): on a reversed date range the source raises
nothing: it evaluates the same boolean-mask filter and returns the empty
table, while the claim demands an `InvalidRange` failure instead of an
empty result. -/
theorem filter_reversed_range_counterexample :
    dateLeB ⟨2017, 6, 1⟩ ⟨2017, 1, 1⟩ = false ∧
    exTable ≠ [] ∧
    filtered_df exTable ["SP", "RJ"] (⟨2017, 6, 1⟩, ⟨2017, 1, 1⟩) = [] := by
  decide

/-- C2 (amended): when the range start is strictly after its end the
Filter Stage raises no error; the two date bounds are jointly
unsatisfiable, so it returns the empty table for every input. -/
theorem filter_reversed_range_empty (T : List Row) (R : List String)
    (a b : Date) (h : dateLeB a b = false) :
    filtered_df T R (a, b) = [] := by
  rw [filtered_df_eq_filter]
  rw [List.filter_eq_nil_iff]
  intro r _
  unfold rowPasses
  simp only [Bool.and_eq_true, not_and]
  intro h1 h2
  exact absurd (dateLeB_trans h1.2 h2) (by simp [h])

/-- Witness for the amended C2 at a concrete table and reversed range. -/
theorem filter_reversed_range_empty_witness :
    dateLeB ⟨2017, 6, 1⟩ ⟨2017, 1, 1⟩ = false ∧
    filtered_df exTable ["SP", "RJ"] (⟨2017, 6, 1⟩, ⟨2017, 1, 1⟩) = [] :=
  ⟨by decide,
   filter_reversed_range_empty exTable ["SP", "RJ"] ⟨2017, 6, 1⟩
     ⟨2017, 1, 1⟩ (by decide)⟩

/-- C3 (counterexample): on the empty filtered table the source divides
a zero count by a zero length inside `Series.mean()`, producing the
`NaN` sentinel (`none`), not the value 0 the claim requires. -/
theorem on_time_pct_empty_counterexample :
    on_time_percentage [] = none ∧ on_time_percentage [] ≠ some 0 := by
  decide

/-- C3 (amended): on a nonempty filtered table `on_time_pct` is the
count of rows with `delivery_status == "On Time"` over the total row
count, times 100; on the empty table it is the `NaN` sentinel (`none`),
which propagates to the caller rather than being replaced by 0. -/
theorem on_time_pct_characterization (df : List Row) :
    (df = [] → on_time_percentage df = none) ∧
    (df ≠ [] → on_time_percentage df =
      some ((((df.filter fun r =>
          r.delivery_status == some "On Time").length : ℚ) /
        (df.length : ℚ)) * 100)) := by
  constructor
  · rintro rfl; rfl
  · intro h
    unfold on_time_percentage boolMean
    rw [if_neg (by simp [h])]
    rw [List.filter_map, Function.id_comp]
    simp [List.length_map]

/-- Witness for the amended C3 at a concrete nonempty table. -/
theorem on_time_pct_characterization_witness :
    exTable ≠ [] ∧
    on_time_percentage exTable =
      some ((((exTable.filter fun r =>
          r.delivery_status == some "On Time").length : ℚ) /
        (exTable.length : ℚ)) * 100) :=
  ⟨by decide, (on_time_pct_characterization exTable).2 (by decide)⟩

/-- Lexicographic boolean `≤` on code-point lists: the order Python
uses to compare strings, hence the order of pandas group keys. -/
def charLeB : List Char → List Char → Bool
  | [], _ => true
  | _ :: _, [] => false
  | c :: cs, d :: ds =>
    if c.toNat < d.toNat then true
    else if d.toNat < c.toNat then false
    else charLeB cs ds

/-- Lexicographic `≤` on strings by code point. -/
def strR (s t : String) : Prop := charLeB s.data t.data = true

instance : DecidableRel strR := fun a b => instDecidableEqBool _ _

/-- Distinct keys of a string column in ascending order: pandas
`groupby(col)` sorts its group keys ascending (`sort=True` default). -/
def sortedKeys (xs : List String) : List String :=
  List.insertionSort strR xs.dedup

/-- `df.groupby(key)['delivery_delay'].mean()` for a non-null string
key column: one `(key, mean)` pair per distinct key, keys ascending,
the mean skipping null delays (`none` when every delay in the group is
null). -/
def groupMeansStr (df : List Row) (key : Row → String) :
    List (String × Option ℚ) :=
  (sortedKeys (df.map key)).map fun k =>
    (k, qmean ((df.filter fun r => key r == k).filterMap Row.delivery_delay))

/-- `df.groupby(key)['delivery_delay'].mean()` for a nullable string key
column: rows with a null key are dropped (`dropna=True` default), keys
ascending. -/
def groupMeansOpt (df : List Row) (key : Row → Option String) :
    List (String × Option ℚ) :=
  (sortedKeys (df.filterMap key)).map fun k =>
    (k, qmean ((df.filter fun r =>
      key r == some k).filterMap Row.delivery_delay))

/-- The Delay-by-Region view of the source:
`filtered_df.groupby('customer_state')['delivery_delay'].mean()`. -/
def delayByRegion (df : List Row) : List (String × Option ℚ) :=
  groupMeansStr df Row.customer_state

/-- The mask `filtered_df['delivery_delay'] > 0`: a null cell compares
`false` against a scalar. -/
def posDelayB (r : Row) : Bool :=
  match r.delivery_delay with
  | some d => decide (0 < d)
  | none => false

/-- `avg_delay` of the source:
`filtered_df[filtered_df['delivery_delay'] > 0]['delivery_delay'].mean()`:
boolean-mask selection of the positive-delay rows, then the mean of that
column (`NaN`, here `none`, when no row passes). -/
def avg_delay (df : List Row) : Option ℚ :=
  qmean ((maskSelect df (df.map posDelayB)).filterMap Row.delivery_delay)

theorem filterMap_delay_pos (df : List Row) :
    (df.filter posDelayB).filterMap Row.delivery_delay =
      (df.filterMap Row.delivery_delay).filter fun d => decide (0 < d) := by
  induction df with
  | nil => rfl
  | cons r df ih =>
    cases hd : r.delivery_delay with
    | none =>
      simp [List.filter_cons, List.filterMap_cons, posDelayB, hd, ih]
    | some d =>
      by_cases hpos : (0 : ℚ) < d <;>
        simp [List.filter_cons, List.filterMap_cons, posDelayB, hd, hpos, ih]

/-- C4: `avg_delay_days` is the mean of `delivery_delay` over exactly
the positive-delay rows; it is the `none` marker (not zero) when no
positive delay exists; under the data-model invariant that "On Time"
rows carry non-positive delays, removing the "On Time" rows does not
change it; and the per-region means of the Delay-by-Region view average
all non-null delays of each region, non-positive ones included — the
two views' scopes differ as claimed. -/
theorem avg_delay_scope (df : List Row)
    (hinv : ∀ r ∈ df, r.delivery_status = some "On Time" →
      r.delivery_delay.getD 0 ≤ 0) :
    avg_delay df =
      qmean ((df.filterMap Row.delivery_delay).filter
        fun d => decide (0 < d)) ∧
    ((df.filterMap Row.delivery_delay).filter (fun d => decide (0 < d)) =
        [] → avg_delay df = none) ∧
    avg_delay df =
      avg_delay (df.filter fun r =>
        !(r.delivery_status == some "On Time")) ∧
    delayByRegion df =
      (sortedKeys (df.map Row.customer_state)).map (fun s =>
        (s, qmean ((df.filter fun r =>
          r.customer_state == s).filterMap Row.delivery_delay))) ∧
    (∀ s m, (s, m) ∈ delayByRegion df →
      m = qmean ((df.filter fun r =>
        r.customer_state == s).filterMap Row.delivery_delay) ∧
      s ∈ df.map Row.customer_state) := by
  have key : ∀ T : List Row, avg_delay T =
      qmean ((T.filterMap Row.delivery_delay).filter
        fun d => decide (0 < d)) := by
    intro T
    unfold avg_delay
    rw [maskSelect_map, filterMap_delay_pos]
  refine ⟨key df, ?_, ?_, rfl, ?_⟩
  · intro h0
    rw [key df, h0]; rfl
  · have hfeq : df.filter posDelayB =
        df.filter (fun a =>
          posDelayB a && (!(a.delivery_status == some "On Time"))) := by
      apply List.filter_congr
      intro r hr
      cases hd : r.delivery_delay with
      | none => simp [posDelayB, hd]
      | some d =>
        by_cases hpos : (0 : ℚ) < d
        · have hnot : ¬ r.delivery_status = some "On Time" := by
            intro hot
            have hle := hinv r hr hot
            rw [hd] at hle
            simp only [Option.getD_some] at hle
            exact absurd hpos (not_lt.mpr hle)
          simp [posDelayB, hd, hpos, hnot]
        · simp [posDelayB, hd, hpos]
    rw [key df, key (df.filter fun r =>
      !(r.delivery_status == some "On Time"))]
    rw [← filterMap_delay_pos, ← filterMap_delay_pos]
    rw [List.filter_filter, ← hfeq]
  · intro s m hmem
    unfold delayByRegion groupMeansStr at hmem
    rw [List.mem_map] at hmem
    obtain ⟨k, hk, heq⟩ := hmem
    have hs : k = s := congrArg Prod.fst heq
    have hm : qmean ((df.filter fun r =>
        Row.customer_state r == k).filterMap Row.delivery_delay) = m :=
      congrArg Prod.snd heq
    subst hs
    constructor
    · exact hm.symm
    · unfold sortedKeys at hk
      simp only [List.mem_insertionSort, List.mem_dedup] at hk
      exact hk

/-- Witness for C4 at a concrete table satisfying the status/delay sign
invariant. -/
theorem avg_delay_scope_witness :
    (∀ r ∈ exTable, r.delivery_status = some "On Time" →
      r.delivery_delay.getD 0 ≤ 0) ∧
    avg_delay exTable =
      qmean ((exTable.filterMap Row.delivery_delay).filter
        fun d => decide (0 < d)) :=
  ⟨by decide, (avg_delay_scope exTable (by decide)).1⟩

/-- The grouped-and-sorted sequence of the Top-10 view:
`filtered_df.groupby('product_category_name')['delivery_delay'].mean()`
(null category keys dropped, keys ascending). -/
def categoryMeans (df : List Row) : List (String × Option ℚ) :=
  groupMeansOpt df Row.product_category_name

/-- Boolean comparison of the ascending argsort that underlies
`sort_values`: defined means ascending.  The sort is only ever applied
to entries with defined means; the `none` arms merely keep the
relation total. -/
def meanAscLeB (a b : String × Option ℚ) : Bool :=
  match a.2, b.2 with
  | some x, some y => decide (x ≤ y)
  | none, _ => true
  | _, none => false

/-- The ascending argsort relation as a proposition. -/
def meanAscLe (a b : String × Option ℚ) : Prop :=
  meanAscLeB a b = true

instance : DecidableRel meanAscLe := fun a b => instDecidableEqBool _ _

instance : IsTotal (String × Option ℚ) meanAscLe :=
  ⟨by
    intro a b
    unfold meanAscLe meanAscLeB
    rcases a with ⟨s, x⟩; rcases b with ⟨t, y⟩
    cases x <;> cases y <;> simp
    exact le_total _ _⟩

instance : IsTrans (String × Option ℚ) meanAscLe :=
  ⟨by
    intro a b c hab hbc
    unfold meanAscLe meanAscLeB at hab hbc ⊢
    rcases a with ⟨s, x⟩; rcases b with ⟨t, y⟩; rcases c with ⟨u, z⟩
    cases x <;> cases y <;> cases z <;> simp_all
    exact le_trans hab hbc⟩

/-- `categoryMeans` ordered as `sort_values(ascending=False,
na_position='last')` orders it.  pandas produces the descending order
by taking the ascending argsort of the defined-mean entries and
reversing it — which makes the descending sort unstable and inverts
the relative order of tied means — and appends the `NaN`-mean entries
at the back in their original order.  The ascending argsort is
modelled by an ascending sort that keeps ties in sequence order, so
after the reversal tied defined means come out in the reverse of their
grouped-sequence (ascending-key) order. -/
def categorySorted (df : List Row) : List (String × Option ℚ) :=
  (List.insertionSort meanAscLe
      ((categoryMeans df).filter fun p => p.2.isSome)).reverse ++
    (categoryMeans df).filter fun p => p.2 == none

/-- The Top-10 Delayed Categories view of the source
(`...sort_values(ascending=False).head(10)`). -/
def top_delayed (df : List Row) : List (String × Option ℚ) :=
  (categorySorted df).take 10

/-- The sorted sequence is a permutation of the grouped sequence. -/
theorem categorySorted_perm (df : List Row) :
    List.Perm (categorySorted df) (categoryMeans df) := by
  unfold categorySorted
  have hB : ((categoryMeans df).filter fun p => p.2 == none) =
      (categoryMeans df).filter fun p => !(p.2.isSome) := by
    apply List.filter_congr
    intro p _
    cases hp : p.2 <;> simp [hp]
  rw [hB]
  refine List.Perm.trans
    (List.Perm.append ?_ (List.Perm.refl _))
    (List.filter_append_perm _ _)
  exact (List.reverse_perm _).trans (List.perm_insertionSort meanAscLe _)

/-- C10: a null `product_category_name` contributes no group to the
Top-10 view — `groupby` drops the null key — so every output key is a
category actually present (non-null) in the table, and deleting the
null-category rows leaves the view unchanged, whatever delays those
rows carry. -/
theorem top_delayed_drops_null_categories (df : List Row) :
    (∀ p ∈ top_delayed df,
      some p.1 ∈ df.map Row.product_category_name) ∧
    top_delayed df =
      top_delayed (df.filter fun r => r.product_category_name != none) := by
  constructor
  · intro p hp
    have hmem : p ∈ categoryMeans df := by
      have h1 : p ∈ categorySorted df :=
        (List.take_sublist 10 _).mem hp
      exact (categorySorted_perm df).mem_iff.mp h1
    unfold categoryMeans groupMeansOpt at hmem
    rw [List.mem_map] at hmem
    obtain ⟨k, hk, heq⟩ := hmem
    have hkeq : k = p.1 := congrArg Prod.fst heq
    subst hkeq
    unfold sortedKeys at hk
    simp only [List.mem_insertionSort, List.mem_dedup] at hk
    rw [List.mem_filterMap] at hk
    obtain ⟨r, hr, hcat⟩ := hk
    rw [List.mem_map]
    exact ⟨r, hr, hcat⟩
  · have hkeys : (df.filter fun r =>
        r.product_category_name != none).filterMap
          Row.product_category_name =
        df.filterMap Row.product_category_name := by
      induction df with
      | nil => rfl
      | cons r df ih =>
        cases hc : r.product_category_name with
        | none => simp [List.filter_cons, List.filterMap_cons, hc, ih]
        | some k => simp [List.filter_cons, List.filterMap_cons, hc, ih]
    have hgroup : ∀ k : String,
        (df.filter fun r => r.product_category_name != none).filter
          (fun r => r.product_category_name == some k) =
        df.filter (fun r => r.product_category_name == some k) := by
      intro k
      rw [List.filter_filter]
      apply List.filter_congr
      intro r _
      cases hc : r.product_category_name <;> simp [hc]
    have hmap : ∀ ks : List String,
        (ks.map fun k => (k, qmean (((df.filter fun r =>
          r.product_category_name != none).filter fun r =>
            Row.product_category_name r == some k).filterMap
              Row.delivery_delay))) =
        ks.map fun k => (k, qmean ((df.filter fun r =>
          Row.product_category_name r == some k).filterMap
            Row.delivery_delay)) := by
      intro ks
      apply List.map_congr_left
      intro k _
      rw [hgroup k]
    unfold top_delayed categorySorted categoryMeans groupMeansOpt
    rw [hkeys, hmap]

/-- The Weight-Category Breakdown of the source:
`filtered_df.groupby('weight_category').agg({'delivery_delay': 'mean',
'order_id': 'count'})`.  pandas `'count'` counts the non-null `order_id`
cells of the group — `order_id` is never null, so this is the group's
row count. -/
def weight_performance (df : List Row) : List (String × Option ℚ × Nat) :=
  (sortedKeys (df.filterMap Row.weight_category)).map fun k =>
    (k,
     qmean ((df.filter fun r =>
       r.weight_category == some k).filterMap Row.delivery_delay),
     (df.filter fun r => r.weight_category == some k).length)

/-- Two rows of one order ("A") in one weight category: row count 2,
distinct-order count 1. -/
def C6df : List Row :=
  [{ mkRow "A" "SP" ⟨⟨2017, 1, 1⟩, 0⟩ (some 1) none with
      weight_category := some "Light" },
   { mkRow "A" "SP" ⟨⟨2017, 1, 2⟩, 0⟩ (some 3) none with
      weight_category := some "Light" }]

/-- C6 (counterexample): the source reports 2 for category "Light" —
the raw row count — although only 1 distinct `order_id` occurs there,
which is what the claim requires. -/
theorem weight_count_counterexample :
    (weight_performance C6df).map (fun t => (t.1, t.2.2)) =
      [("Light", 2)] ∧
    ((C6df.filter fun r => r.weight_category == some "Light").map
      Row.order_id).dedup.length = 1 := by
  decide

/-- C6 (amended): the Weight-Category Breakdown groups by
`weight_category` (null keys dropped), and per group reports the mean
`delivery_delay` (nulls skipped, `none` when all null) together with
the group's raw row count — `agg` with `'count'`, not the distinct
`order_id` count. -/
theorem weight_breakdown_rowcount (df : List Row) :
    ((weight_performance df).map Prod.fst =
      sortedKeys (df.filterMap Row.weight_category)) ∧
    (∀ k m c, (k, m, c) ∈ weight_performance df →
      m = qmean ((df.filter fun r =>
        r.weight_category == some k).filterMap Row.delivery_delay) ∧
      c = (df.filter fun r => r.weight_category == some k).length ∧
      some k ∈ df.map Row.weight_category) ∧
    (∀ k : String, some k ∈ df.map Row.weight_category →
      ∃ m c, (k, m, c) ∈ weight_performance df) := by
  refine ⟨?_, ?_, ?_⟩
  · unfold weight_performance
    rw [List.map_map]
    exact List.map_id _
  · intro k m c hmem
    unfold weight_performance at hmem
    rw [List.mem_map] at hmem
    obtain ⟨k0, hk0, heq⟩ := hmem
    have hk : k0 = k := congrArg Prod.fst heq
    subst hk
    have hm : qmean ((df.filter fun r =>
        r.weight_category == some k0).filterMap Row.delivery_delay) = m :=
      congrArg (fun t => t.2.1) heq
    have hc : (df.filter fun r =>
        r.weight_category == some k0).length = c :=
      congrArg (fun t => t.2.2) heq
    refine ⟨hm.symm, hc.symm, ?_⟩
    unfold sortedKeys at hk0
    simp only [List.mem_insertionSort, List.mem_dedup] at hk0
    rw [List.mem_filterMap] at hk0
    obtain ⟨r, hr, hw⟩ := hk0
    rw [List.mem_map]
    exact ⟨r, hr, hw⟩
  · intro k hk
    rw [List.mem_map] at hk
    obtain ⟨r, hr, hw⟩ := hk
    refine ⟨qmean ((df.filter fun r =>
        r.weight_category == some k).filterMap Row.delivery_delay),
      (df.filter fun r => r.weight_category == some k).length, ?_⟩
    unfold weight_performance
    rw [List.mem_map]
    refine ⟨k, ?_, rfl⟩
    unfold sortedKeys
    simp only [List.mem_insertionSort, List.mem_dedup]
    rw [List.mem_filterMap]
    exact ⟨r, hr, hw⟩

/-- The fixed 7-day reindex domain of the source, in its literal
order. -/
def weekdays : List String :=
  ["Monday", "Tuesday", "Wednesday", "Thursday", "Friday", "Saturday",
   "Sunday"]

/-- The Weekday Profile of the source:
`filtered_df.groupby('order_weekday')['delivery_delay'].mean()
.reindex([Monday..Sunday])`: for each of the 7 labels in order, the
group's mean when the label has a group, else the `NaN` (`none`)
marker. -/
def weekday_perf (df : List Row) : List (String × Option ℚ) :=
  weekdays.map fun d =>
    (d, (List.lookup d (groupMeansOpt df Row.order_weekday)).join)

theorem sortedKeys_nodup (xs : List String) : (sortedKeys xs).Nodup :=
  (List.perm_insertionSort strR xs.dedup).nodup_iff.mpr
    (List.nodup_dedup xs)

theorem lookup_keyed_map (g : String → Option ℚ) :
    ∀ ks : List String, ks.Nodup → ∀ d : String,
    List.lookup d (ks.map fun k => (k, g k)) =
      if d ∈ ks then some (g d) else none := by
  intro ks
  induction ks with
  | nil => intro _ d; simp
  | cons k ks ih =>
    intro hnd d
    rw [List.nodup_cons] at hnd
    by_cases hd : d = k
    · subst hd
      simp [List.lookup]
    · have hne : (d == k) = false := beq_eq_false_iff_ne.mpr hd
      simp only [List.map_cons, List.lookup, hne, ih hnd.2 d,
        List.mem_cons]
      simp [hd]

/-- Looking a label up in the grouped means and flattening gives the
label's group mean, whether or not the label occurs: an absent label
has an empty group, whose mean is already `none`. -/
theorem groupMeansOpt_lookup (df : List Row) (key : Row → Option String)
    (d : String) :
    (List.lookup d (groupMeansOpt df key)).join =
      qmean ((df.filter fun r => key r == some d).filterMap
        Row.delivery_delay) := by
  unfold groupMeansOpt
  rw [lookup_keyed_map _ _ (sortedKeys_nodup _) d]
  by_cases hd : d ∈ sortedKeys (df.filterMap key)
  · rw [if_pos hd]
    rfl
  · rw [if_neg hd]
    have hempty : (df.filter fun r => key r == some d) = [] := by
      rw [List.filter_eq_nil_iff]
      intro r hr hcon
      apply hd
      unfold sortedKeys
      simp only [List.mem_insertionSort, List.mem_dedup]
      rw [List.mem_filterMap]
      exact ⟨r, hr, eq_of_beq hcon⟩
    rw [hempty]
    rfl

/-- The membership test of the source's implicit domain restriction: a
row's weekday lies in the fixed 7-day list. -/
def inWeekdayDomain (r : Row) : Bool :=
  (r.order_weekday.map weekdays.contains).getD false

/-- C8: the Weekday Profile always has exactly 7 entries, labelled
Monday..Sunday in that literal order; each entry carries the mean delay
of the rows with exactly that weekday (`none` when the day has no
observations — the day is kept, not dropped); and rows whose
`order_weekday` lies outside the 7-day domain (or is null) never reach
an output entry: deleting them first changes nothing, and no error
arises. -/
theorem weekday_profile_complete (df : List Row) :
    (weekday_perf df).length = 7 ∧
    (weekday_perf df).map Prod.fst = weekdays ∧
    weekday_perf df = weekdays.map (fun d =>
      (d, qmean ((df.filter fun r =>
        r.order_weekday == some d).filterMap Row.delivery_delay))) ∧
    weekday_perf df = weekday_perf (df.filter inWeekdayDomain) ∧
    (∀ d ∈ weekdays,
      (df.filter fun r => r.order_weekday == some d) = [] →
      (d, (none : Option ℚ)) ∈ weekday_perf df) := by
  have hmain : ∀ T : List Row, weekday_perf T = weekdays.map (fun d =>
      (d, qmean ((T.filter fun r =>
        r.order_weekday == some d).filterMap Row.delivery_delay))) := by
    intro T
    unfold weekday_perf
    apply List.map_congr_left
    intro d _
    rw [groupMeansOpt_lookup T Row.order_weekday d]
  refine ⟨?_, ?_, hmain df, ?_, ?_⟩
  · unfold weekday_perf
    rw [List.length_map]
    rfl
  · unfold weekday_perf
    rw [List.map_map]
    exact List.map_id _
  · rw [hmain df, hmain (df.filter inWeekdayDomain)]
    apply List.map_congr_left
    intro d hd
    have hgrp : ((df.filter inWeekdayDomain).filter fun r =>
        r.order_weekday == some d) =
        df.filter fun r => r.order_weekday == some d := by
      rw [List.filter_filter]
      apply List.filter_congr
      intro r _
      cases hw : r.order_weekday with
      | none => simp [hw]
      | some w =>
        by_cases hwd : w = d
        · subst hwd
          simp [inWeekdayDomain, hw, hd]
        · simp [hw, Option.some_inj, hwd]
    rw [hgrp]
  · intro d hd hempty
    rw [hmain df]
    rw [List.mem_map]
    refine ⟨d, hd, ?_⟩
    rw [hempty]
    rfl

/-- The period key of `dt.to_period('M')`: the (year, month) pair of
the purchase timestamp. -/
def monthKey (r : Row) : Nat × Nat :=
  (r.order_purchase_timestamp.date.year,
   r.order_purchase_timestamp.date.month)

/-- Boolean `≤` on (year, month) period keys, the chronological order
pandas sorts group keys by. -/
def monthLeB (a b : Nat × Nat) : Bool :=
  decide (a.1 < b.1) || (decide (a.1 = b.1) && decide (a.2 ≤ b.2))

/-- The period-key order as a proposition. -/
def monthR (a b : Nat × Nat) : Prop := monthLeB a b = true

instance : DecidableRel monthR := fun a b => instDecidableEqBool _ _

instance : IsTotal (Nat × Nat) monthR :=
  ⟨by
    intro a b
    unfold monthR monthLeB
    simp only [Bool.or_eq_true, Bool.and_eq_true, decide_eq_true_eq]
    omega⟩

instance : IsTrans (Nat × Nat) monthR :=
  ⟨by
    intro a b c hab hbc
    unfold monthR monthLeB at hab hbc ⊢
    simp only [Bool.or_eq_true, Bool.and_eq_true, decide_eq_true_eq]
      at hab hbc ⊢
    omega⟩

/-- The distinct month buckets of the table, chronologically
ascending (pandas `groupby` sorts its Period keys). -/
def monthlyKeys (df : List Row) : List (Nat × Nat) :=
  List.insertionSort monthR (df.map monthKey).dedup

/-- Two-digit month rendering inside a Period label. -/
def pad2 (n : Nat) : String :=
  if n < 10 then "0" ++ toString n else toString n

/-- `astype(str)` on a monthly Period: the `"YYYY-MM"` label. -/
def labelYM (k : Nat × Nat) : String :=
  toString k.1 ++ "-" ++ pad2 k.2

/-- The Monthly Trend view of the source:
`filtered_df.groupby(...dt.to_period('M'))['delivery_delay'].mean()`
followed by `astype(str)` on the bucket labels. -/
def monthly_trend (df : List Row) : List (String × Option ℚ) :=
  (monthlyKeys df).map fun k =>
    (labelYM k,
     qmean ((df.filter fun r => monthKey r == k).filterMap
       Row.delivery_delay))

/-- C9: the Monthly Trend buckets rows by the (year, month) of the
purchase timestamp; the bucket keys are strictly chronologically
increasing (earliest first); the buckets are exactly the months present
in the table; each bucket carries the mean delay of its rows and the
`"YYYY-MM"` label of its key. -/
theorem monthly_trend_chronological (df : List Row) :
    List.Pairwise (fun a b : Nat × Nat =>
      a.1 < b.1 ∨ (a.1 = b.1 ∧ a.2 < b.2)) (monthlyKeys df) ∧
    monthly_trend df = (monthlyKeys df).map (fun k =>
      (labelYM k, qmean ((df.filter fun r =>
        monthKey r == k).filterMap Row.delivery_delay))) ∧
    (∀ k, k ∈ monthlyKeys df ↔ ∃ r ∈ df, monthKey r = k) ∧
    (monthly_trend df).map Prod.fst = (monthlyKeys df).map labelYM := by
  refine ⟨?_, rfl, ?_, ?_⟩
  · have hsorted : List.Pairwise monthR (monthlyKeys df) :=
      List.sorted_insertionSort monthR _
    have hnodup : (monthlyKeys df).Nodup :=
      (List.perm_insertionSort monthR _).nodup_iff.mpr
        (List.nodup_dedup _)
    refine (hsorted.and hnodup).imp ?_
    intro a b hab
    obtain ⟨hle, hne⟩ := hab
    unfold monthR monthLeB at hle
    simp only [Bool.or_eq_true, Bool.and_eq_true, decide_eq_true_eq]
      at hle
    have hne2 : ¬(a.1 = b.1 ∧ a.2 = b.2) := by
      intro h
      exact hne (Prod.ext h.1 h.2)
    omega
  · intro k
    unfold monthlyKeys
    simp only [List.mem_insertionSort, List.mem_dedup]
    exact List.mem_map
  · unfold monthly_trend
    rw [List.map_map]
    rfl

/-- The fixed six correlation features, in the source's order:
`['delivery_delay', 'product_weight_g', 'product_length_cm',
'product_height_cm', 'product_width_cm', 'volume']`. -/
def corrFeatures : Fin 6 → Row → Option ℚ :=
  ![Row.delivery_delay, Row.product_weight_g, Row.product_length_cm,
    Row.product_height_cm, Row.product_width_cm, Row.volume]

/-- Pairwise-complete observations for the feature pair (i, j): the
rows where both features are non-null, each contributing its pair of
values; a row null in either member is excluded for this pair only,
exactly the deletion rule of `DataFrame.corr()`. -/
def jointObs (df : List Row) (i j : Fin 6) : List (ℚ × ℚ) :=
  df.filterMap fun r =>
    match corrFeatures i r, corrFeatures j r with
    | some x, some y => some (x, y)
    | _, _ => none

/-- Arithmetic mean over ℚ (0 on the empty list; only used under
length guards). -/
def meanQ (l : List ℚ) : ℚ := l.sum / (l.length : ℚ)

/-- Sum of products of deviations: the covariance numerator of the
Pearson coefficient. -/
def covO (obs : List (ℚ × ℚ)) : ℚ :=
  (obs.map fun p => (p.1 - meanQ (obs.map Prod.fst)) *
    (p.2 - meanQ (obs.map Prod.snd))).sum

/-- Sum of squared deviations of the first coordinates. -/
def varFst (obs : List (ℚ × ℚ)) : ℚ :=
  (obs.map fun p => (p.1 - meanQ (obs.map Prod.fst)) ^ 2).sum

/-- Sum of squared deviations of the second coordinates. -/
def varSnd (obs : List (ℚ × ℚ)) : ℚ :=
  (obs.map fun p => (p.2 - meanQ (obs.map Prod.snd)) ^ 2).sum

/-- Sign of a rational. -/
def sgn (x : ℚ) : ℚ := if x < 0 then -1 else if x = 0 then 0 else 1

/-- The (i, j) entry of `filtered_df[corr_features].corr()`, carried as
the signed square sign(r) · r² of the Pearson coefficient
r = cov / √(varᵢ · varⱼ).  The map r ↦ sign(r) · r² is strictly
increasing and injective, so equality of entries (symmetry) and the
unit diagonal transfer exactly between the matrix and this
representation, while the square root — irrational in general — never
appears.  `none` is the `NaN` that pandas produces when the pair has
fewer than 2 joint observations or a zero variance (a zero divisor in
`cov/√(varᵢ·varⱼ)`), rather than raising an error. -/
def corrSq (df : List Row) (i j : Fin 6) : Option ℚ :=
  if (jointObs df i j).length < 2 ∨ varFst (jointObs df i j) = 0 ∨
      varSnd (jointObs df i j) = 0 then none
  else
    some (sgn (covO (jointObs df i j)) * covO (jointObs df i j) ^ 2 /
      (varFst (jointObs df i j) * varSnd (jointObs df i j)))

theorem jointObs_swap (df : List Row) (i j : Fin 6) :
    jointObs df j i = (jointObs df i j).map Prod.swap := by
  unfold jointObs
  induction df with
  | nil => rfl
  | cons r df ih =>
    cases hi : corrFeatures i r <;> cases hj : corrFeatures j r <;>
      simp [List.filterMap_cons, hi, hj, ih, Prod.swap]

theorem map_fst_swap (obs : List (ℚ × ℚ)) :
    (obs.map Prod.swap).map Prod.fst = obs.map Prod.snd := by
  rw [List.map_map]
  rfl

theorem map_snd_swap (obs : List (ℚ × ℚ)) :
    (obs.map Prod.swap).map Prod.snd = obs.map Prod.fst := by
  rw [List.map_map]
  rfl

theorem varFst_swap (obs : List (ℚ × ℚ)) :
    varFst (obs.map Prod.swap) = varSnd obs := by
  unfold varFst varSnd
  rw [map_fst_swap, List.map_map]
  rfl

theorem varSnd_swap (obs : List (ℚ × ℚ)) :
    varSnd (obs.map Prod.swap) = varFst obs := by
  unfold varFst varSnd
  rw [map_snd_swap, List.map_map]
  rfl

theorem covO_swap (obs : List (ℚ × ℚ)) :
    covO (obs.map Prod.swap) = covO obs := by
  unfold covO
  rw [map_fst_swap, map_snd_swap, List.map_map]
  apply congrArg List.sum
  apply List.map_congr_left
  intro p _
  show (p.2 - meanQ (obs.map Prod.snd)) * (p.1 - meanQ (obs.map Prod.fst)) =
    (p.1 - meanQ (obs.map Prod.fst)) * (p.2 - meanQ (obs.map Prod.snd))
  ring

theorem jointObs_diag (df : List Row) (i : Fin 6) :
    jointObs df i i =
      (df.filterMap (corrFeatures i)).map fun x => (x, x) := by
  unfold jointObs
  induction df with
  | nil => rfl
  | cons r df ih =>
    cases hi : corrFeatures i r <;> simp [List.filterMap_cons, hi, ih]

theorem diag_map_fst (vals : List ℚ) :
    ((vals.map fun x => (x, x)).map Prod.fst) = vals := by
  induction vals with
  | nil => rfl
  | cons v t ih => simp only [List.map_cons, ih]

theorem diag_map_snd (vals : List ℚ) :
    ((vals.map fun x => (x, x)).map Prod.snd) = vals := by
  induction vals with
  | nil => rfl
  | cons v t ih => simp only [List.map_cons, ih]

theorem covO_diag (vals : List ℚ) :
    covO (vals.map fun x => (x, x)) =
      varFst (vals.map fun x => (x, x)) := by
  unfold covO varFst
  rw [diag_map_fst, diag_map_snd, List.map_map, List.map_map]
  apply congrArg List.sum
  apply List.map_congr_left
  intro x _
  show (x - meanQ vals) * (x - meanQ vals) = (x - meanQ vals) ^ 2
  ring

theorem varSnd_diag (vals : List ℚ) :
    varSnd (vals.map fun x => (x, x)) =
      varFst (vals.map fun x => (x, x)) := by
  unfold varSnd varFst
  rw [diag_map_fst, diag_map_snd, List.map_map, List.map_map]
  rfl

theorem var_zero_of_short (obs : List (ℚ × ℚ)) (h : obs.length < 2) :
    varFst obs = 0 := by
  rcases obs with _ | ⟨p, _ | ⟨q, t⟩⟩
  · rfl
  · unfold varFst meanQ
    simp
  · simp only [List.length_cons] at h
    omega

theorem varFst_nonneg (obs : List (ℚ × ℚ)) : 0 ≤ varFst obs := by
  unfold varFst
  apply List.sum_nonneg
  intro x hx
  rw [List.mem_map] at hx
  obtain ⟨p, _, rfl⟩ := hx
  exact sq_nonneg _

/-- C7: the correlation matrix over the six fixed features (a 6×6
array indexed by `Fin 6`), in the signed-square representation, is
symmetric; its diagonal entry is 1 whenever the feature has nonzero
variance over its non-null values; and a pair with fewer than 2
pairwise-complete observations or zero variance in either member gets
the `NaN` marker rather than an error (the embedded function is
total). -/
theorem corr_matrix_properties (df : List Row) (i j : Fin 6) :
    corrSq df i j = corrSq df j i ∧
    (varFst (jointObs df i i) ≠ 0 → corrSq df i i = some 1) ∧
    ((jointObs df i j).length < 2 ∨ varFst (jointObs df i j) = 0 ∨
        varSnd (jointObs df i j) = 0 →
      corrSq df i j = none) := by
  refine ⟨?_, ?_, ?_⟩
  · unfold corrSq
    rw [jointObs_swap df i j, List.length_map, varFst_swap, varSnd_swap,
      covO_swap]
    apply if_congr
    · tauto
    · rfl
    · rw [mul_comm (varFst (jointObs df i j)) (varSnd (jointObs df i j))]
  · intro hv
    rw [jointObs_diag df i] at hv
    unfold corrSq
    rw [jointObs_diag df i, covO_diag, varSnd_diag]
    have hcond : ¬(((df.filterMap (corrFeatures i)).map
          fun x => (x, x)).length < 2 ∨
        varFst ((df.filterMap (corrFeatures i)).map fun x => (x, x)) = 0 ∨
        varFst ((df.filterMap (corrFeatures i)).map fun x => (x, x)) = 0)
        := by
      intro h
      rcases h with h | h | h
      · exact hv (var_zero_of_short _ h)
      · exact hv h
      · exact hv h
    rw [if_neg hcond]
    have hpos : 0 < varFst ((df.filterMap (corrFeatures i)).map
        fun x => (x, x)) :=
      lt_of_le_of_ne (varFst_nonneg _) (Ne.symm hv)
    have hsgn : sgn (varFst ((df.filterMap (corrFeatures i)).map
        fun x => (x, x))) = 1 := by
      unfold sgn
      rw [if_neg (not_lt.mpr hpos.le), if_neg (ne_of_gt hpos)]
    rw [hsgn, one_mul, sq, div_self (mul_ne_zero hv hv)]
  · intro h
    unfold corrSq
    rw [if_pos h]

/-- Two rows whose delays 0 and 1 give the delay feature nonzero
variance. -/
def C7df : List Row :=
  [mkRow "1" "SP" ⟨⟨2017, 1, 1⟩, 0⟩ (some 0) none,
   mkRow "2" "SP" ⟨⟨2017, 1, 2⟩, 0⟩ (some 1) none]

/-- Witness for C7: at a table where the delay feature varies, its
diagonal entry is exactly 1. -/
theorem corr_matrix_properties_witness :
    varFst (jointObs C7df 0 0) ≠ 0 ∧ corrSq C7df 0 0 = some 1 := by
  have hvar : varFst (jointObs C7df 0 0) ≠ 0 := by
    simp only [C7df, jointObs, corrFeatures, mkRow, Matrix.cons_val_zero,
      List.filterMap_cons, List.filterMap_nil]
    norm_num [varFst, meanQ]
  exact ⟨hvar, (corr_matrix_properties C7df 0 0).2.1 hvar⟩

end Dashboard
